import Mathlib

/-!
Verification of the DyldExtractor front end (extractor.py) and the
extraction pipeline it drives.  Strings are modelled as lists of
characters, file contents as lists of bytes (natural numbers).  The
converter stages live in a package that is not part of this repository;
they are modelled from the spec as parameters: each stage reads the
shared cache, transforms the private image buffer, and may fail.
-/

set_option autoImplicit false

namespace DyldExtractor

/-- Strings from the Python source, modelled as lists of characters. -/
abbrev Str := List Char

/-- File contents, modelled as lists of byte values. -/
abbrev Buf := List Nat

/-- ASCII lower-casing of one character, as Python str.lower does on
the ASCII range covered by the cache image paths. -/
def lowerChar (c : Char) : Char :=
  if 'A' ≤ c && c ≤ 'Z' then Char.ofNat (c.toNat + 32) else c

/-- Lower-casing of a whole string, as Python str.lower. -/
def lowerStr (s : Str) : Str := s.map lowerChar

/-- Whitespace test matching Python str.strip on ASCII input. -/
def isPySpace (c : Char) : Bool :=
  c == ' ' || c == '\t' || c == '\n' || c == '\r' || c == '\x0b' || c == '\x0c'

/-- Python str.strip: drop leading and trailing whitespace. -/
def stripStr (s : Str) : Str :=
  ((s.dropWhile isPySpace).reverse.dropWhile isPySpace).reverse

/-- Boolean test that the first list starts the second one. -/
def listStartsWith : Str → Str → Bool
  | [], _ => true
  | _ :: _, [] => false
  | a :: p, b :: s => a == b && listStartsWith p s

/-- Python substring containment, needle in hay. -/
def strIn (needle : Str) : Str → Bool
  | [] => listStartsWith needle []
  | c :: rest => listStartsWith needle (c :: rest) || strIn needle rest

/-- Translation of the source function: collect the paths whose
lower-cased text contains the lower-cased filter term, keeping order. -/
def _filterImages (imagePaths : List Str) (filterTerm : Str) : List Str :=
  let lowered := lowerStr filterTerm
  imagePaths.foldl
    (fun acc path => if strIn lowered (lowerStr path) then acc ++ [path] else acc)
    []

/-- The predicate the spec describes: the lower-cased term occurs in the
lower-cased path. -/
def specMatches (filterTerm path : Str) : Bool :=
  strIn (lowerStr filterTerm) (lowerStr path)

theorem filterImages_foldl (paths : List Str) (term : Str) (acc : List Str) :
    paths.foldl
      (fun acc path =>
        if strIn (lowerStr term) (lowerStr path) then acc ++ [path] else acc)
      acc = acc ++ paths.filter (fun p => specMatches term p) := by
  induction paths generalizing acc with
  | nil => simp
  | cons p rest ih =>
    by_cases h : strIn (lowerStr term) (lowerStr p) = true
    · simp [List.foldl_cons, h, ih, List.filter_cons, specMatches]
    · simp only [Bool.not_eq_true] at h
      simp [List.foldl_cons, h, ih, List.filter_cons, specMatches]

/-- The filtering operation is exactly an order-preserving filter by the
case-insensitive substring predicate. -/
theorem filterImages_eq_filter (paths : List Str) (term : Str) :
    _filterImages paths term = paths.filter (fun p => specMatches term p) := by
  simpa [_filterImages] using filterImages_foldl paths term []

/-- The ordered names the source gives the five converter stages. -/
inductive StageName where
  | slideInfo
  | linkeditOpt
  | stubFixer
  | objcFixer
  | machoOffset
deriving DecidableEq, Repr

/-- Errors a run can end with: a fatal stage error, a missing map key,
or a missing parent directory at open time. -/
inductive Err where
  | fatal (msg : Str)
  | keyError
  | fileNotFound
deriving DecidableEq, Repr

/-- Observable actions of one program run, in order of occurrence. -/
inductive Event where
  | stageRun (s : StageName)
  | statusUpdate (reporter unit status : Str)
  | fileOpen (path : Str)
  | fileWrite (path : Str) (data : Buf)
  | printMsg (msg : Str)
  | mkdirs (d : Str)
deriving DecidableEq, Repr

/-- A Mach-O segment load command; only the fields the extractor reads
when sizing the output are modelled. -/
structure segment_command_64 where
  fileoff : Nat
  filesize : Nat
deriving DecidableEq, Repr

/-- Modelled from the spec: the DyldContext of the missing DyldExtractor
package.  It owns the read-only cache bytes, the image directory with
its path strings already decoded, and the mapping-based address to file
offset translation convertAddr. -/
structure dyld_cache_image_info where
  address : Nat
  path : Str
deriving DecidableEq, Repr

/-- Modelled from the spec: cache container view, read-only and shared. -/
structure DyldContext where
  file : Buf
  images : List dyld_cache_image_info
  convertAddr : Nat → Nat

/-- Modelled from the spec: the per-image view, a private writable copy
of the cache bytes plus the parsed segment table keyed by name. -/
structure MachOContext where
  file : Buf
  segments : List (Str × segment_command_64)
deriving DecidableEq

/-- Association-list lookup, first hit wins, as the segments map. -/
def lookupSeg (segs : List (Str × segment_command_64)) (name : Str) :
    Option segment_command_64 :=
  match segs.find? (fun q => q.1 == name) with
  | none => none
  | some q => some q.2

/-- The b"__LINKEDIT" key used by the write phase. -/
def linkeditName : Str := "__LINKEDIT".toList

/-- Modelled from the spec: one converter stage reads the shared cache,
transforms the private image view, and may raise a fatal error.  It
receives neither the status reporter nor the file system. -/
abbrev Stage := DyldContext → MachOContext → Except Err MachOContext

/-- The fixed order of the five converter invocations in _extractImage. -/
def stageOrder : List StageName :=
  [.slideInfo, .linkeditOpt, .stubFixer, .objcFixer, .machoOffset]

/-- Run a list of stages in order, recording one event per stage that
was entered and stopping at the first fatal error. -/
def runStagesAux (conv : StageName → Stage) (d : DyldContext) :
    List StageName → MachOContext → List Event × Except Err MachOContext
  | [], m => ([], .ok m)
  | s :: rest, m =>
    match conv s d m with
    | .error e => ([Event.stageRun s], .error e)
    | .ok m2 =>
      let r := runStagesAux conv d rest m2
      (Event.stageRun s :: r.1, r.2)

/-- A flat file system: the set of directories and the files with their
contents.  The empty path stands for the working directory. -/
structure FS where
  dirs : List Str
  files : List (Str × Buf)
deriving DecidableEq, Repr

/-- Everything up to the last slash of a path; empty when there is no
slash, meaning the working directory. -/
def parentDir (p : Str) : Str :=
  (((p.reverse.dropWhile (fun c => c != '/')).drop 1)).reverse

/-- Whether a directory exists; the working directory always does. -/
def dirExists (fs : FS) (d : Str) : Bool :=
  d.isEmpty || fs.dirs.any (fun q => q == d)

/-- Create or overwrite a file entry. -/
def FS.setFile (fs : FS) (p : Str) (b : Buf) : FS :=
  if fs.files.any (fun q => q.1 == p) then
    { fs with files := fs.files.map (fun q => if q.1 == p then (p, b) else q) }
  else
    { fs with files := fs.files ++ [(p, b)] }

/-- Look up the contents of a file. -/
def FS.readFile (fs : FS) (p : Str) : Option Buf :=
  match fs.files.find? (fun q => q.1 == p) with
  | none => none
  | some q => some q.2

/-- os.makedirs with exist_ok: record the directory as existing. -/
def FS.mkdirs (fs : FS) (d : Str) : FS :=
  if dirExists fs d then fs else { fs with dirs := fs.dirs ++ [d] }

/-- The result of an extractor run: the ordered events, the final file
system, the cache bytes after the run, and success or the fatal error. -/
structure ExtractResult where
  events : List Event
  fs : FS
  dyldFileAfter : Buf
  outcome : Except Err Unit

/-- The mmap ACCESS_COPY constructor call in _extractImage: the image
view starts as a private copy of the cache bytes, its segment table
parsed at the converted image base address.  The parser itself lives in
the missing package and stays a parameter. -/
def initialMachoCtx (parseSegs : Buf → Nat → List (Str × segment_command_64))
    (dyldCtx : DyldContext) (image : dyld_cache_image_info) : MachOContext :=
  let machoFile := dyldCtx.file
  ⟨machoFile, parseSegs machoFile (dyldCtx.convertAddr image.address)⟩

/-- The write phase of _extractImage: open the output for writing,
report status, size the buffer by the end of the linkedit segment, and
write exactly that prefix of the converted image. -/
def writePhase (reporter : Str) (m : MachOContext) (outputPath : Str)
    (fs : FS) : List Event × FS × Except Err Unit :=
  if dirExists fs (parentDir outputPath) then
    let fs1 := fs.setFile outputPath []
    match lookupSeg m.segments linkeditName with
    | none =>
      ([Event.fileOpen outputPath,
        Event.statusUpdate reporter ("Extractor".toList) ("Writing file".toList)],
        fs1, .error .keyError)
    | some seg =>
      let fileSize := seg.fileoff + seg.filesize
      let buf := m.file.take fileSize
      ([Event.fileOpen outputPath,
        Event.statusUpdate reporter ("Extractor".toList) ("Writing file".toList),
        Event.fileWrite outputPath buf,
        Event.statusUpdate reporter ("Extractor".toList) ("Done".toList)],
        fs1.setFile outputPath buf, .ok ())
  else
    ([Event.fileOpen outputPath], fs, .error .fileNotFound)

/-- Translation of _extractImage: copy the image out of the cache, run
the five converters in their fixed order, then write the sized prefix
of the converted buffer to the output path. -/
def _extractImage (conv : StageName → Stage)
    (parseSegs : Buf → Nat → List (Str × segment_command_64))
    (reporter : Str) (dyldCtx : DyldContext) (image : dyld_cache_image_info)
    (outputPath : Str) (fs : FS) : ExtractResult :=
  let machoCtx := initialMachoCtx parseSegs dyldCtx image
  let sr := runStagesAux conv dyldCtx stageOrder machoCtx
  match sr.2 with
  | .error e => ⟨sr.1, fs, dyldCtx.file, .error e⟩
  | .ok m =>
    let wp := writePhase reporter m outputPath fs
    ⟨sr.1 ++ wp.1, wp.2.1, dyldCtx.file, wp.2.2⟩

/-- The parsed command line: extract, output and filter default to
None, list-frameworks to False, verbosity to one. -/
structure Args where
  extract : Option Str
  output : Option Str
  list_frameworks : Bool
  filter : Option Str
  verbosity : Nat
deriving DecidableEq, Repr

/-- Python truthiness of an optional string: None and the empty string
are falsy. -/
def optTruthy : Option Str → Bool
  | none => false
  | some s => !s.isEmpty

/-- Python dict assignment over an insertion-ordered association list:
an existing key keeps its position and takes the new value. -/
def dictInsert (m : List (Str × dyld_cache_image_info)) (k : Str)
    (v : dyld_cache_image_info) : List (Str × dyld_cache_image_info) :=
  if m.any (fun q => q.1 == k) then
    m.map (fun q => if q.1 == k then (k, v) else q)
  else
    m ++ [(k, v)]

/-- Python dict lookup: the single entry stored under the key. -/
def dictFind (m : List (Str × dyld_cache_image_info)) (k : Str) :
    Option dyld_cache_image_info :=
  match m.find? (fun q => q.1 == k) with
  | none => none
  | some q => some q.2

/-- The imageMap loop of main: each image path, read from the cache and
decoded, is mapped to its image record. -/
def buildImageMap (images : List dyld_cache_image_info) :
    List (Str × dyld_cache_image_info) :=
  images.foldl (fun m i => dictInsert m i.path i) []

/-- The insertion-ordered keys of the image map of a cache. -/
def imageKeys (dyldCtx : DyldContext) : List Str :=
  (buildImageMap dyldCtx.images).map (fun q => q.1)

/-- The banner printed before the image listing. -/
def listingHeader : Str := "Listing Images\n--------------".toList

/-- The message printed when no image path matches the target. -/
def notFoundMsg (target : Str) : Str :=
  ("Unable to find image \"".toList) ++ target ++ ("\"".toList)

/-- The message printed before extraction starts. -/
def extractingMsg (path : Str) : Str := ("Extracting ".toList) ++ path

/-- The list-frameworks branch of main. -/
def listBranch (dyldCtx : DyldContext) (args : Args) (fs : FS) :
    ExtractResult :=
  let imagePaths := imageKeys dyldCtx
  let paths :=
    if optTruthy args.filter then
      _filterImages imagePaths (lowerStr (stripStr (args.filter.getD [])))
    else imagePaths
  ⟨Event.printMsg listingHeader :: paths.map Event.printMsg,
    fs, dyldCtx.file, .ok ()⟩

/-- The output-path choice of main: the --output value verbatim when
supplied, otherwise the default binaries/<target>, whose parent
directory is created with os.makedirs. -/
def outputChoice (args : Args) (target : Str) (fs : FS) :
    Str × FS × List Event :=
  match args.output with
  | some p => (p, fs, [])
  | none =>
    let op := ("binaries/".toList) ++ target
    (op, fs.mkdirs (parentDir op), [Event.mkdirs (parentDir op)])

/-- The extract branch of main, entered when --extract is truthy. -/
def extractBranch (conv : StageName → Stage)
    (parseSegs : Buf → Nat → List (Str × segment_command_64))
    (reporter : Str) (dyldCtx : DyldContext) (args : Args) (fs : FS) :
    ExtractResult :=
  let extractionTarget := stripStr (args.extract.getD [])
  let targetPaths := _filterImages (imageKeys dyldCtx) extractionTarget
  match targetPaths with
  | [] =>
    ⟨[Event.printMsg (notFoundMsg extractionTarget)], fs, dyldCtx.file, .ok ()⟩
  | tp :: _ =>
    let owm := outputChoice args extractionTarget fs
    let pre := owm.2.2 ++ [Event.printMsg (extractingMsg tp)]
    match dictFind (buildImageMap dyldCtx.images) tp with
    | none => ⟨pre, owm.2.1, dyldCtx.file, .error .keyError⟩
    | some img =>
      let r := _extractImage conv parseSegs reporter dyldCtx img owm.1 owm.2.1
      ⟨pre ++ r.events, r.fs, r.dyldFileAfter, r.outcome⟩

/-- Translation of main after argument parsing and logging setup: list
frameworks when asked, otherwise extract when a truthy target is given,
otherwise do nothing. -/
def main (conv : StageName → Stage)
    (parseSegs : Buf → Nat → List (Str × segment_command_64))
    (reporter : Str) (dyldCtx : DyldContext) (args : Args) (fs : FS) :
    ExtractResult :=
  if args.list_frameworks then
    listBranch dyldCtx args fs
  else if optTruthy args.extract then
    extractBranch conv parseSegs reporter dyldCtx args fs
  else
    ⟨[], fs, dyldCtx.file, .ok ()⟩

/-- Whether an event records a converter stage entering. -/
def isStageEvent : Event → Bool
  | Event.stageRun _ => true
  | _ => false

/-- Whether an event touches the output file. -/
def isFileEvent : Event → Bool
  | Event.fileOpen _ => true
  | Event.fileWrite _ _ => true
  | _ => false

/-- Whether an event is a status-bar notification. -/
def isStatusEvent : Event → Bool
  | Event.statusUpdate _ _ _ => true
  | _ => false

/-- Whether an event creates a directory. -/
def isMkdirsEvent : Event → Bool
  | Event.mkdirs _ => true
  | _ => false

theorem runStagesAux_ok_events (conv : StageName → Stage) (d : DyldContext) :
    ∀ (names : List StageName) (m m2 : MachOContext),
      (runStagesAux conv d names m).2 = .ok m2 →
      (runStagesAux conv d names m).1 = names.map Event.stageRun := by
  intro names
  induction names with
  | nil => intro m m2 _; rfl
  | cons s rest ih =>
    intro m m2 h
    unfold runStagesAux at h ⊢
    cases hc : conv s d m with
    | error e =>
      rw [hc] at h
      exact Except.noConfusion h
    | ok mm =>
      rw [hc] at h
      have h2 : (runStagesAux conv d rest mm).2 = Except.ok m2 := h
      show Event.stageRun s :: (runStagesAux conv d rest mm).1 =
        List.map Event.stageRun (s :: rest)
      rw [ih mm m2 h2, List.map_cons]

theorem runStagesAux_events_take (conv : StageName → Stage) (d : DyldContext) :
    ∀ (names : List StageName) (m : MachOContext),
      (runStagesAux conv d names m).1 =
        (names.take (runStagesAux conv d names m).1.length).map Event.stageRun := by
  intro names
  induction names with
  | nil => intro m; rfl
  | cons s rest ih =>
    intro m
    unfold runStagesAux
    cases hc : conv s d m with
    | error e => rfl
    | ok mm => simpa using ih mm

theorem runStagesAux_events_stage (conv : StageName → Stage) (d : DyldContext) :
    ∀ (names : List StageName) (m : MachOContext),
      ((runStagesAux conv d names m).1.all (fun e => isStageEvent e)) = true := by
  intro names
  induction names with
  | nil => intro m; rfl
  | cons s rest ih =>
    intro m
    unfold runStagesAux
    cases hc : conv s d m with
    | error e => rfl
    | ok mm => simpa [isStageEvent] using ih mm

theorem writePhase_events_shape (reporter : Str) (m : MachOContext)
    (outputPath : Str) (fs : FS) :
    ((writePhase reporter m outputPath fs).1.all
      (fun e => !isStageEvent e && !isMkdirsEvent e)) = true := by
  unfold writePhase
  by_cases hd : dirExists fs (parentDir outputPath) = true
  · simp only [hd, if_true]
    cases hs : lookupSeg m.segments linkeditName with
    | none => simp [isStageEvent, isMkdirsEvent]
    | some seg => simp [isStageEvent, isMkdirsEvent]
  · simp only [Bool.not_eq_true] at hd
    simp [hd, isStageEvent, isMkdirsEvent]

theorem writePhase_reporter_indep (r1 r2 : Str) (m : MachOContext)
    (outputPath : Str) (fs : FS) :
    (writePhase r1 m outputPath fs).2 = (writePhase r2 m outputPath fs).2 ∧
    (writePhase r1 m outputPath fs).1.filter (fun e => !isStatusEvent e) =
      (writePhase r2 m outputPath fs).1.filter (fun e => !isStatusEvent e) := by
  unfold writePhase
  by_cases hd : dirExists fs (parentDir outputPath) = true
  · simp only [hd, if_true]
    cases hs : lookupSeg m.segments linkeditName with
    | none => simp [isStatusEvent]
    | some seg => simp [isStatusEvent]
  · simp only [Bool.not_eq_true] at hd
    simp [hd]

theorem find_setFile_aux (p : Str) (b : Buf) :
    ∀ (l : List (Str × Buf)), l.any (fun q => q.1 == p) = true →
      (l.map (fun q => if q.1 == p then (p, b) else q)).find?
        (fun q => q.1 == p) = some (p, b) := by
  intro l
  induction l with
  | nil => intro h; simp at h
  | cons q t ih =>
    intro h
    by_cases hq : (q.1 == p) = true
    · simp [hq, List.find?]
    · simp only [List.any_cons, hq, Bool.false_or] at h
      simp only [List.map_cons, hq, if_false]
      rw [List.find?_cons_of_neg _ (by simpa using hq)]
      exact ih h

theorem readFile_setFile (fs : FS) (p : Str) (b : Buf) :
    (fs.setFile p b).readFile p = some b := by
  unfold FS.setFile FS.readFile
  by_cases h : fs.files.any (fun q => q.1 == p) = true
  · rw [if_pos h]
    show (match (fs.files.map
        (fun q => if q.1 == p then (p, b) else q)).find?
        (fun q => q.1 == p) with
      | none => none
      | some q => some q.2) = some b
    rw [find_setFile_aux p b fs.files h]
  · rw [if_neg h]
    show (match (fs.files ++ [(p, b)]).find? (fun q => q.1 == p) with
      | none => none
      | some q => some q.2) = some b
    have hnone : fs.files.find? (fun q => q.1 == p) = none := by
      rw [List.find?_eq_none]
      intro x hx hcon
      exact h (List.any_of_mem hx hcon)
    rw [List.find?_append, hnone]
    simp [List.find?]

theorem keys_dictInsert (m : List (Str × dyld_cache_image_info)) (k : Str)
    (v : dyld_cache_image_info) :
    ∀ x ∈ (dictInsert m k v).map (fun q => q.1),
      x = k ∨ x ∈ m.map (fun q => q.1) := by
  intro x hx
  unfold dictInsert at hx
  by_cases h : m.any (fun q => q.1 == k) = true
  · rw [if_pos h, List.map_map, List.mem_map] at hx
    obtain ⟨q, hq, hqx⟩ := hx
    simp only [Function.comp_apply] at hqx
    by_cases hk : (q.1 == k) = true
    · rw [if_pos hk] at hqx
      left; exact hqx.symm
    · rw [if_neg hk] at hqx
      right; exact hqx ▸ List.mem_map_of_mem _ hq
  · rw [if_neg h, List.map_append, List.mem_append] at hx
    rcases hx with hx | hx
    · right; exact hx
    · left
      simp only [List.map_cons, List.map_nil, List.mem_singleton] at hx
      exact hx

theorem keys_foldl_sub (l : List dyld_cache_image_info) :
    ∀ (m : List (Str × dyld_cache_image_info)) (x : Str),
      x ∈ (l.foldl (fun m i => dictInsert m i.path i) m).map (fun q => q.1) →
      x ∈ m.map (fun q => q.1) ∨ ∃ i, i ∈ l ∧ i.path = x := by
  induction l with
  | nil =>
    intro m x hx
    simp only [List.foldl_nil] at hx
    left; exact hx
  | cons i t ih =>
    intro m x hx
    simp only [List.foldl_cons] at hx
    rcases ih (dictInsert m i.path i) x hx with hm | ⟨j, hj, hjx⟩
    · rcases keys_dictInsert m i.path i x hm with he | hm2
      · right; exact ⟨i, List.mem_cons_self i t, he.symm⟩
      · left; exact hm2
    · right; exact ⟨j, List.mem_cons_of_mem i hj, hjx⟩

theorem keys_buildImageMap (l : List dyld_cache_image_info) (x : Str) :
    x ∈ (buildImageMap l).map (fun q => q.1) → ∃ i, i ∈ l ∧ i.path = x := by
  intro hx
  rcases keys_foldl_sub l [] x hx with hm | h
  · simp at hm
  · exact h

theorem extractImage_ok (conv : StageName → Stage)
    (parseSegs : Buf → Nat → List (Str × segment_command_64))
    (reporter : Str) (dyldCtx : DyldContext) (image : dyld_cache_image_info)
    (outputPath : Str) (fs : FS) (m : MachOContext)
    (hok : (runStagesAux conv dyldCtx stageOrder
      (initialMachoCtx parseSegs dyldCtx image)).2 = Except.ok m) :
    _extractImage conv parseSegs reporter dyldCtx image outputPath fs =
      ⟨(runStagesAux conv dyldCtx stageOrder
          (initialMachoCtx parseSegs dyldCtx image)).1
        ++ (writePhase reporter m outputPath fs).1,
        (writePhase reporter m outputPath fs).2.1,
        dyldCtx.file,
        (writePhase reporter m outputPath fs).2.2⟩ := by
  unfold _extractImage
  simp only [hok]

theorem extractImage_error (conv : StageName → Stage)
    (parseSegs : Buf → Nat → List (Str × segment_command_64))
    (reporter : Str) (dyldCtx : DyldContext) (image : dyld_cache_image_info)
    (outputPath : Str) (fs : FS) (e : Err)
    (herr : (runStagesAux conv dyldCtx stageOrder
      (initialMachoCtx parseSegs dyldCtx image)).2 = Except.error e) :
    _extractImage conv parseSegs reporter dyldCtx image outputPath fs =
      ⟨(runStagesAux conv dyldCtx stageOrder
          (initialMachoCtx parseSegs dyldCtx image)).1,
        fs, dyldCtx.file, Except.error e⟩ := by
  unfold _extractImage
  simp only [herr]

theorem main_extract_eq (conv : StageName → Stage)
    (parseSegs : Buf → Nat → List (Str × segment_command_64))
    (reporter : Str) (dyldCtx : DyldContext) (args : Args) (fs : FS) (t : Str)
    (hl : args.list_frameworks = false) (he : args.extract = some t)
    (hne : t.isEmpty = false) :
    main conv parseSegs reporter dyldCtx args fs =
      extractBranch conv parseSegs reporter dyldCtx args fs := by
  unfold main
  rw [hl, he]
  simp [optTruthy, hne]

theorem outputChoice_some (args : Args) (target : Str) (fs : FS) (o : Str)
    (ho : args.output = some o) :
    outputChoice args target fs = (o, fs, []) := by
  unfold outputChoice
  rw [ho]

theorem outputChoice_none (args : Args) (target : Str) (fs : FS)
    (ho : args.output = none) :
    outputChoice args target fs =
      ((("binaries/".toList) ++ target),
        fs.mkdirs (parentDir (("binaries/".toList) ++ target)),
        [Event.mkdirs (parentDir (("binaries/".toList) ++ target))]) := by
  unfold outputChoice
  rw [ho]

theorem extractBranch_nomatch (conv : StageName → Stage)
    (parseSegs : Buf → Nat → List (Str × segment_command_64))
    (reporter : Str) (dyldCtx : DyldContext) (args : Args) (fs : FS) (t : Str)
    (he : args.extract = some t)
    (hnil : _filterImages (imageKeys dyldCtx) (stripStr t) = []) :
    extractBranch conv parseSegs reporter dyldCtx args fs =
      ⟨[Event.printMsg (notFoundMsg (stripStr t))], fs, dyldCtx.file,
        Except.ok ()⟩ := by
  unfold extractBranch
  rw [he]
  simp only [Option.getD_some, hnil]

theorem extractBranch_cons_none (conv : StageName → Stage)
    (parseSegs : Buf → Nat → List (Str × segment_command_64))
    (reporter : Str) (dyldCtx : DyldContext) (args : Args) (fs : FS)
    (t p : Str) (rest : List Str)
    (he : args.extract = some t)
    (hm : _filterImages (imageKeys dyldCtx) (stripStr t) = p :: rest)
    (hdf : dictFind (buildImageMap dyldCtx.images) p = none) :
    extractBranch conv parseSegs reporter dyldCtx args fs =
      ⟨(outputChoice args (stripStr t) fs).2.2
          ++ [Event.printMsg (extractingMsg p)],
        (outputChoice args (stripStr t) fs).2.1, dyldCtx.file,
        Except.error Err.keyError⟩ := by
  unfold extractBranch
  rw [he]
  simp only [Option.getD_some, hm, hdf]

theorem extractBranch_cons_found (conv : StageName → Stage)
    (parseSegs : Buf → Nat → List (Str × segment_command_64))
    (reporter : Str) (dyldCtx : DyldContext) (args : Args) (fs : FS)
    (t p : Str) (rest : List Str) (img : dyld_cache_image_info)
    (he : args.extract = some t)
    (hm : _filterImages (imageKeys dyldCtx) (stripStr t) = p :: rest)
    (hdf : dictFind (buildImageMap dyldCtx.images) p = some img) :
    extractBranch conv parseSegs reporter dyldCtx args fs =
      ⟨(outputChoice args (stripStr t) fs).2.2
          ++ [Event.printMsg (extractingMsg p)]
          ++ (_extractImage conv parseSegs reporter dyldCtx img
              (outputChoice args (stripStr t) fs).1
              (outputChoice args (stripStr t) fs).2.1).events,
        (_extractImage conv parseSegs reporter dyldCtx img
          (outputChoice args (stripStr t) fs).1
          (outputChoice args (stripStr t) fs).2.1).fs,
        (_extractImage conv parseSegs reporter dyldCtx img
          (outputChoice args (stripStr t) fs).1
          (outputChoice args (stripStr t) fs).2.1).dyldFileAfter,
        (_extractImage conv parseSegs reporter dyldCtx img
          (outputChoice args (stripStr t) fs).1
          (outputChoice args (stripStr t) fs).2.1).outcome⟩ := by
  unfold extractBranch
  rw [he]
  simp only [Option.getD_some, hm, hdf]

theorem extractImage_ok_opened (conv : StageName → Stage)
    (parseSegs : Buf → Nat → List (Str × segment_command_64))
    (reporter : Str) (dyldCtx : DyldContext) (image : dyld_cache_image_info)
    (outputPath : Str) (fs : FS)
    (hsucc : (_extractImage conv parseSegs reporter dyldCtx image outputPath
      fs).outcome = Except.ok ()) :
    Event.fileOpen outputPath ∈
      (_extractImage conv parseSegs reporter dyldCtx image outputPath fs).events
    ∧ (FS.readFile
        (_extractImage conv parseSegs reporter dyldCtx image outputPath fs).fs
        outputPath).isSome = true := by
  cases hr : (runStagesAux conv dyldCtx stageOrder
      (initialMachoCtx parseSegs dyldCtx image)).2 with
  | error e =>
    rw [extractImage_error conv parseSegs reporter dyldCtx image outputPath
      fs e hr] at hsucc
    exact Except.noConfusion hsucc
  | ok m =>
    rw [extractImage_ok conv parseSegs reporter dyldCtx image outputPath
      fs m hr] at hsucc ⊢
    unfold writePhase at hsucc ⊢
    by_cases hd : dirExists fs (parentDir outputPath) = true
    · rw [if_pos hd] at hsucc ⊢
      cases hs : lookupSeg m.segments linkeditName with
      | none =>
        simp only [hs] at hsucc
        exact Except.noConfusion hsucc
      | some seg =>
        simp only [hs]
        refine ⟨by simp, ?_⟩
        rw [readFile_setFile]
        rfl
    · rw [if_neg hd] at hsucc
      exact Except.noConfusion hsucc

theorem extractImage_no_mkdirs (conv : StageName → Stage)
    (parseSegs : Buf → Nat → List (Str × segment_command_64))
    (reporter : Str) (dyldCtx : DyldContext) (image : dyld_cache_image_info)
    (outputPath : Str) (fs : FS) :
    ((_extractImage conv parseSegs reporter dyldCtx image outputPath
      fs).events.all (fun e => !isMkdirsEvent e)) = true := by
  have hstage := runStagesAux_events_stage conv dyldCtx stageOrder
    (initialMachoCtx parseSegs dyldCtx image)
  cases hr : (runStagesAux conv dyldCtx stageOrder
      (initialMachoCtx parseSegs dyldCtx image)).2 with
  | error e =>
    rw [extractImage_error conv parseSegs reporter dyldCtx image outputPath
      fs e hr]
    simp only [List.all_eq_true] at hstage ⊢
    intro ev hev
    have h2 := hstage ev hev
    cases ev <;> simp_all [isStageEvent, isMkdirsEvent]
  | ok m =>
    rw [extractImage_ok conv parseSegs reporter dyldCtx image outputPath
      fs m hr]
    have hw := writePhase_events_shape reporter m outputPath fs
    simp only [List.all_eq_true] at hstage hw ⊢
    intro ev hev
    rcases List.mem_append.mp hev with h1 | h2
    · have h3 := hstage ev h1
      cases ev <;> simp_all [isStageEvent, isMkdirsEvent]
    · exact ((Bool.and_eq_true _ _).mp (hw ev h2)).2

theorem extractImage_parent_missing (conv : StageName → Stage)
    (parseSegs : Buf → Nat → List (Str × segment_command_64))
    (reporter : Str) (dyldCtx : DyldContext) (image : dyld_cache_image_info)
    (outputPath : Str) (fs : FS)
    (hd : dirExists fs (parentDir outputPath) = false) :
    (_extractImage conv parseSegs reporter dyldCtx image outputPath fs).fs = fs
    ∧ (_extractImage conv parseSegs reporter dyldCtx image outputPath
        fs).outcome ≠ Except.ok () := by
  cases hr : (runStagesAux conv dyldCtx stageOrder
      (initialMachoCtx parseSegs dyldCtx image)).2 with
  | error e =>
    rw [extractImage_error conv parseSegs reporter dyldCtx image outputPath
      fs e hr]
    exact ⟨rfl, fun hc => Except.noConfusion hc⟩
  | ok m =>
    rw [extractImage_ok conv parseSegs reporter dyldCtx image outputPath
      fs m hr]
    unfold writePhase
    rw [if_neg (by simp [hd])]
    exact ⟨rfl, fun hc => Except.noConfusion hc⟩

/-- Converter stages that succeed without changing the image view. -/
def convOk : StageName → Stage := fun _ _ m => .ok m

/-- Converter stages whose first invocation raises a fatal error. -/
def convBad : StageName → Stage := fun _ _ _ => .error (Err.fatal ("boom".toList))

/-- A parser exposing one two-byte linkedit segment at offset zero. -/
def segsConc : Buf → Nat → List (Str × segment_command_64) :=
  fun _ _ => [(linkeditName, ⟨0, 2⟩)]

/-- The single image of the test cache. -/
def imgConc : dyld_cache_image_info := ⟨4096, "UIKit.framework/UIKit".toList⟩

/-- A one-image cache holding three bytes. -/
def cacheConc : DyldContext := ⟨[7, 8, 9], [imgConc], fun _ => 0⟩

/-- An empty file system. -/
def fs0 : FS := ⟨[], []⟩

/-- C1: for every extraction whose five stages succeed, the emitted
output buffer is exactly the first bytes of the converted image up to
the end offset of the linkedit segment, its length equals that end
offset (file offset plus file size), and no cache byte beyond that
offset is written. -/
theorem C1_output_is_linkedit_prefix
    (conv : StageName → Stage)
    (parseSegs : Buf → Nat → List (Str × segment_command_64))
    (reporter : Str) (dyldCtx : DyldContext) (image : dyld_cache_image_info)
    (outputPath : Str) (fs : FS) (m : MachOContext) (seg : segment_command_64)
    (hok : (runStagesAux conv dyldCtx stageOrder
      (initialMachoCtx parseSegs dyldCtx image)).2 = Except.ok m)
    (hseg : lookupSeg m.segments linkeditName = some seg)
    (hfit : seg.fileoff + seg.filesize ≤ m.file.length)
    (hdir : dirExists fs (parentDir outputPath) = true) :
    (_extractImage conv parseSegs reporter dyldCtx image outputPath fs).outcome
        = Except.ok ()
    ∧ Event.fileWrite outputPath (m.file.take (seg.fileoff + seg.filesize)) ∈
        (_extractImage conv parseSegs reporter dyldCtx image outputPath fs).events
    ∧ (m.file.take (seg.fileoff + seg.filesize)).length
        = seg.fileoff + seg.filesize
    ∧ FS.readFile
        (_extractImage conv parseSegs reporter dyldCtx image outputPath fs).fs
        outputPath = some (m.file.take (seg.fileoff + seg.filesize)) := by
  rw [extractImage_ok conv parseSegs reporter dyldCtx image outputPath fs m hok]
  unfold writePhase
  rw [if_pos hdir]
  simp only [hseg]
  refine ⟨by trivial, by simp, ?_, ?_⟩
  · rw [List.length_take]
    exact min_eq_left hfit
  · exact readFile_setFile _ outputPath _

/-- C1 witness: on the concrete one-image cache with identity stages,
the emitted file is the two-byte prefix of the converted image. -/
theorem C1_witness :
    (_extractImage convOk segsConc ("r".toList) cacheConc imgConc
        ("out".toList) fs0).outcome = Except.ok ()
    ∧ Event.fileWrite ("out".toList) ([7, 8] : Buf) ∈
        (_extractImage convOk segsConc ("r".toList) cacheConc imgConc
          ("out".toList) fs0).events
    ∧ ([7, 8] : Buf).length = 2
    ∧ FS.readFile
        (_extractImage convOk segsConc ("r".toList) cacheConc imgConc
          ("out".toList) fs0).fs ("out".toList) = some ([7, 8] : Buf) := by
  have h := C1_output_is_linkedit_prefix convOk segsConc ("r".toList)
    cacheConc imgConc ("out".toList) fs0
    (initialMachoCtx segsConc cacheConc imgConc) ⟨0, 2⟩
    rfl rfl (by decide) (by decide)
  exact h

/-- C2: the converter events of every run are an order-respecting
prefix of the fixed order slide-info, linkedit optimization, stub
fixing, objc fixing, offset optimization — so the layout stage never
runs before a content stage and no stage runs twice — and when the
pipeline succeeds each of the five has run exactly once in that order
and every emission event comes after all of them, in the write phase. -/
theorem C2_stage_order (conv : StageName → Stage)
    (parseSegs : Buf → Nat → List (Str × segment_command_64))
    (reporter : Str) (dyldCtx : DyldContext) (image : dyld_cache_image_info)
    (outputPath : Str) (fs : FS) :
    stageOrder = [StageName.slideInfo, StageName.linkeditOpt,
      StageName.stubFixer, StageName.objcFixer, StageName.machoOffset]
    ∧ (runStagesAux conv dyldCtx stageOrder
        (initialMachoCtx parseSegs dyldCtx image)).1
      = (stageOrder.take (runStagesAux conv dyldCtx stageOrder
          (initialMachoCtx parseSegs dyldCtx image)).1.length).map Event.stageRun
    ∧ ∀ m, (runStagesAux conv dyldCtx stageOrder
        (initialMachoCtx parseSegs dyldCtx image)).2 = Except.ok m →
      (_extractImage conv parseSegs reporter dyldCtx image outputPath fs).events
          = stageOrder.map Event.stageRun ++ (writePhase reporter m outputPath fs).1
      ∧ ((writePhase reporter m outputPath fs).1.all
          (fun e => !isStageEvent e)) = true := by
  refine ⟨rfl, runStagesAux_events_take conv dyldCtx stageOrder _, ?_⟩
  intro m hok
  constructor
  · rw [extractImage_ok conv parseSegs reporter dyldCtx image outputPath fs m hok]
    rw [runStagesAux_ok_events conv dyldCtx stageOrder _ m hok]
  · have h := writePhase_events_shape reporter m outputPath fs
    simp only [List.all_eq_true] at h ⊢
    intro e he
    exact ((Bool.and_eq_true _ _).mp (h e he)).1

/-- C2 witness: on the concrete cache with identity stages, the events
are the five stage events in order followed by the write-phase events,
none of which is a stage event. -/
theorem C2_witness :
    (_extractImage convOk segsConc ("r".toList) cacheConc imgConc
        ("out".toList) fs0).events
      = stageOrder.map Event.stageRun
        ++ (writePhase ("r".toList) (initialMachoCtx segsConc cacheConc imgConc)
            ("out".toList) fs0).1
    ∧ ((writePhase ("r".toList) (initialMachoCtx segsConc cacheConc imgConc)
        ("out".toList) fs0).1.all (fun e => !isStageEvent e)) = true :=
  (C2_stage_order convOk segsConc ("r".toList) cacheConc imgConc
    ("out".toList) fs0).2.2 (initialMachoCtx segsConc cacheConc imgConc) rfl

/-- C5: the shared cache bytes are never mutated: the working image
view starts as a private copy of the cache bytes, and after the run —
whatever the stages did to that copy — the cache contents equal their
contents before the run. -/
theorem C5_cache_immutable (conv : StageName → Stage)
    (parseSegs : Buf → Nat → List (Str × segment_command_64))
    (reporter : Str) (dyldCtx : DyldContext) (image : dyld_cache_image_info)
    (outputPath : Str) (fs : FS) :
    (initialMachoCtx parseSegs dyldCtx image).file = dyldCtx.file
    ∧ (_extractImage conv parseSegs reporter dyldCtx image outputPath
        fs).dyldFileAfter = dyldCtx.file := by
  refine ⟨rfl, ?_⟩
  cases h : (runStagesAux conv dyldCtx stageOrder
      (initialMachoCtx parseSegs dyldCtx image)).2 with
  | error e =>
    rw [extractImage_error conv parseSegs reporter dyldCtx image outputPath fs e h]
  | ok m =>
    rw [extractImage_ok conv parseSegs reporter dyldCtx image outputPath fs m h]

/-- C6: the output is never left partially written: when a stage raises
a fatal error the file system is unchanged and no file was opened or
written, and when all five stages succeed the file events all belong to
the write phase, after the five stage events. -/
theorem C6_no_partial_output (conv : StageName → Stage)
    (parseSegs : Buf → Nat → List (Str × segment_command_64))
    (reporter : Str) (dyldCtx : DyldContext) (image : dyld_cache_image_info)
    (outputPath : Str) (fs : FS) :
    (∀ e, (runStagesAux conv dyldCtx stageOrder
        (initialMachoCtx parseSegs dyldCtx image)).2 = Except.error e →
      (_extractImage conv parseSegs reporter dyldCtx image outputPath fs).fs = fs
      ∧ ((_extractImage conv parseSegs reporter dyldCtx image outputPath
          fs).events.all (fun ev => !isFileEvent ev)) = true)
    ∧ (∀ m, (runStagesAux conv dyldCtx stageOrder
        (initialMachoCtx parseSegs dyldCtx image)).2 = Except.ok m →
      (_extractImage conv parseSegs reporter dyldCtx image outputPath fs).events
        = stageOrder.map Event.stageRun
          ++ (writePhase reporter m outputPath fs).1) := by
  constructor
  · intro e herr
    rw [extractImage_error conv parseSegs reporter dyldCtx image outputPath fs e herr]
    refine ⟨rfl, ?_⟩
    have h := runStagesAux_events_stage conv dyldCtx stageOrder
      (initialMachoCtx parseSegs dyldCtx image)
    simp only [List.all_eq_true] at h ⊢
    intro ev hev
    have h2 := h ev hev
    cases ev <;> simp_all [isStageEvent, isFileEvent]
  · intro m hok
    rw [extractImage_ok conv parseSegs reporter dyldCtx image outputPath fs m hok]
    rw [runStagesAux_ok_events conv dyldCtx stageOrder _ m hok]

/-- C6 witness: when the first stage fails on the concrete cache, the
file system is untouched and no file event happened. -/
theorem C6_witness :
    (_extractImage convBad segsConc ("r".toList) cacheConc imgConc
        ("out".toList) fs0).fs = fs0
    ∧ ((_extractImage convBad segsConc ("r".toList) cacheConc imgConc
        ("out".toList) fs0).events.all (fun ev => !isFileEvent ev)) = true :=
  (C6_no_partial_output convBad segsConc ("r".toList) cacheConc imgConc
    ("out".toList) fs0).1 (Err.fatal ("boom".toList)) rfl

/-- C8: the status reporter does not influence the result: two runs
differing only in the injected reporter produce the same final file
system, the same outcome, the same cache bytes, and the same event
sequence once status notifications are removed. -/
theorem C8_reporter_noninterference (conv : StageName → Stage)
    (parseSegs : Buf → Nat → List (Str × segment_command_64))
    (dyldCtx : DyldContext) (image : dyld_cache_image_info)
    (outputPath : Str) (fs : FS) (r1 r2 : Str) :
    (_extractImage conv parseSegs r1 dyldCtx image outputPath fs).fs
      = (_extractImage conv parseSegs r2 dyldCtx image outputPath fs).fs
    ∧ (_extractImage conv parseSegs r1 dyldCtx image outputPath fs).outcome
      = (_extractImage conv parseSegs r2 dyldCtx image outputPath fs).outcome
    ∧ (_extractImage conv parseSegs r1 dyldCtx image outputPath fs).dyldFileAfter
      = (_extractImage conv parseSegs r2 dyldCtx image outputPath fs).dyldFileAfter
    ∧ (_extractImage conv parseSegs r1 dyldCtx image outputPath
        fs).events.filter (fun e => !isStatusEvent e)
      = (_extractImage conv parseSegs r2 dyldCtx image outputPath
          fs).events.filter (fun e => !isStatusEvent e) := by
  cases h : (runStagesAux conv dyldCtx stageOrder
      (initialMachoCtx parseSegs dyldCtx image)).2 with
  | error e =>
    rw [extractImage_error conv parseSegs r1 dyldCtx image outputPath fs e h,
      extractImage_error conv parseSegs r2 dyldCtx image outputPath fs e h]
    exact ⟨rfl, rfl, rfl, rfl⟩
  | ok m =>
    rw [extractImage_ok conv parseSegs r1 dyldCtx image outputPath fs m h,
      extractImage_ok conv parseSegs r2 dyldCtx image outputPath fs m h]
    have hw := writePhase_reporter_indep r1 r2 m outputPath fs
    refine ⟨?_, ?_, rfl, ?_⟩
    · exact congrArg Prod.fst hw.1
    · exact congrArg Prod.snd hw.1
    · show ((runStagesAux conv dyldCtx stageOrder
          (initialMachoCtx parseSegs dyldCtx image)).1
            ++ (writePhase r1 m outputPath fs).1).filter (fun e => !isStatusEvent e)
        = ((runStagesAux conv dyldCtx stageOrder
          (initialMachoCtx parseSegs dyldCtx image)).1
            ++ (writePhase r2 m outputPath fs).1).filter (fun e => !isStatusEvent e)
      rw [List.filter_append, List.filter_append, hw.2]

/-- A target matching no image path, list mode off. -/
def argsMiss : Args := ⟨some ("zzz".toList), none, false, none, 1⟩

/-- A target whose raw text matches no path but whose stripped text
does. -/
def argsSpaced : Args := ⟨some (" uikit ".toList), none, false, none, 1⟩

/-- A matching target with an explicit output path. -/
def argsOut : Args := ⟨some ("UIKit".toList), some ("out".toList), false, none, 1⟩

/-- A matching target with the default output path. -/
def argsDefault : Args := ⟨some ("UIKit".toList), none, false, none, 1⟩

/-- A listing request with a filter term. -/
def argsList : Args := ⟨none, none, true, some ("kit".toList), 1⟩

/-- A matching target whose explicit output path has a missing parent
directory. -/
def argsOutMiss : Args :=
  ⟨some ("UIKit".toList), some ("nodir/out".toList), false, none, 1⟩

/-- C3 counterexample: the raw extraction target " uikit " is a
case-insensitive substring of none of the image paths of the concrete
one-image cache, yet the program does not print the not-found message
and does write an output file, because the code strips the target
before matching. -/
theorem C3_counterexample :
    specMatches (" uikit ".toList) imgConc.path = false
    ∧ cacheConc.images = [imgConc]
    ∧ FS.readFile (main convOk segsConc ("r".toList) cacheConc argsSpaced
        fs0).fs (("binaries/uikit").toList) = some ([7, 8] : Buf)
    ∧ ((main convOk segsConc ("r".toList) cacheConc argsSpaced fs0).events.all
        (fun e => e != Event.printMsg (notFoundMsg (" uikit ".toList)))) = true := by
  refine ⟨by decide, rfl, by decide, by decide⟩

/-- C3 (amended): when list mode is off, the --extract value is
nonempty, and its whitespace-stripped form is a case-insensitive
substring of none of the image paths, the program prints the not-found
message naming the stripped target, writes nothing, and succeeds. -/
theorem C3_notfound_no_write (conv : StageName → Stage)
    (parseSegs : Buf → Nat → List (Str × segment_command_64))
    (reporter : Str) (dyldCtx : DyldContext) (args : Args) (fs : FS) (t : Str)
    (hl : args.list_frameworks = false)
    (he : args.extract = some t)
    (hne : t.isEmpty = false)
    (hmiss : ∀ img ∈ dyldCtx.images,
      specMatches (stripStr t) img.path = false) :
    (main conv parseSegs reporter dyldCtx args fs).events
      = [Event.printMsg (notFoundMsg (stripStr t))]
    ∧ (main conv parseSegs reporter dyldCtx args fs).fs = fs
    ∧ (main conv parseSegs reporter dyldCtx args fs).outcome = Except.ok () := by
  have hnil : _filterImages (imageKeys dyldCtx) (stripStr t) = [] := by
    rw [filterImages_eq_filter, List.filter_eq_nil_iff]
    intro p hp
    obtain ⟨i, hi, hip⟩ := keys_buildImageMap dyldCtx.images p hp
    rw [← hip]
    simp [hmiss i hi]
  rw [main_extract_eq conv parseSegs reporter dyldCtx args fs t hl he hne]
  rw [extractBranch_nomatch conv parseSegs reporter dyldCtx args fs t he hnil]
  exact ⟨rfl, rfl, rfl⟩

/-- C3 witness: on the concrete cache the target zzz matches nothing,
so only the not-found message is printed and the file system is
unchanged. -/
theorem C3_witness :
    (main convOk segsConc ("r".toList) cacheConc argsMiss fs0).events
      = [Event.printMsg (notFoundMsg (stripStr ("zzz".toList)))]
    ∧ (main convOk segsConc ("r".toList) cacheConc argsMiss fs0).fs = fs0
    ∧ (main convOk segsConc ("r".toList) cacheConc argsMiss fs0).outcome
      = Except.ok () :=
  C3_notfound_no_write convOk segsConc ("r".toList) cacheConc argsMiss fs0
    ("zzz".toList) rfl rfl rfl (by decide)

/-- C4: filtering returns exactly the order-preserving list of paths of
which the lower-cased term is a substring; on the UIKit and Foundation
example the term kit keeps only the UIKit path; extraction prints the
first match as the selected image; and listing prints every match. -/
theorem C4_filter_semantics :
    (∀ (paths : List Str) (term : Str),
      _filterImages paths term = paths.filter (fun q => specMatches term q))
    ∧ _filterImages
        [("UIKit.framework/UIKit").toList,
          ("Foundation.framework/Foundation").toList] ("kit".toList)
      = [("UIKit.framework/UIKit").toList]
    ∧ (∀ (conv : StageName → Stage)
        (parseSegs : Buf → Nat → List (Str × segment_command_64))
        (reporter : Str) (dyldCtx : DyldContext) (args : Args) (fs : FS)
        (t p : Str) (rest : List Str),
        args.list_frameworks = false → args.extract = some t →
        t.isEmpty = false →
        _filterImages (imageKeys dyldCtx) (stripStr t) = p :: rest →
        Event.printMsg (extractingMsg p) ∈
          (main conv parseSegs reporter dyldCtx args fs).events)
    ∧ (∀ (conv : StageName → Stage)
        (parseSegs : Buf → Nat → List (Str × segment_command_64))
        (reporter : Str) (dyldCtx : DyldContext) (args : Args) (fs : FS)
        (f : Str),
        args.list_frameworks = true → args.filter = some f →
        f.isEmpty = false →
        (main conv parseSegs reporter dyldCtx args fs).events
          = Event.printMsg listingHeader ::
            (_filterImages (imageKeys dyldCtx)
              (lowerStr (stripStr f))).map Event.printMsg) := by
  refine ⟨filterImages_eq_filter, by decide, ?_, ?_⟩
  · intro conv parseSegs reporter dyldCtx args fs t p rest hl he hne hm
    rw [main_extract_eq conv parseSegs reporter dyldCtx args fs t hl he hne]
    cases hdf : dictFind (buildImageMap dyldCtx.images) p with
    | none =>
      rw [extractBranch_cons_none conv parseSegs reporter dyldCtx args fs
        t p rest he hm hdf]
      simp
    | some img =>
      rw [extractBranch_cons_found conv parseSegs reporter dyldCtx args fs
        t p rest img he hm hdf]
      simp
  · intro conv parseSegs reporter dyldCtx args fs f hl hf hfne
    unfold main
    rw [hl, if_pos rfl]
    unfold listBranch
    rw [hf]
    simp [optTruthy, hfne]

/-- C4 witness: on the concrete cache, the extraction run prints the
first match and the listing run prints the header and every match. -/
theorem C4_witness :
    Event.printMsg (extractingMsg (("UIKit.framework/UIKit").toList)) ∈
      (main convOk segsConc ("r".toList) cacheConc argsOut fs0).events
    ∧ (main convOk segsConc ("r".toList) cacheConc argsList fs0).events
      = Event.printMsg listingHeader ::
        (_filterImages (imageKeys cacheConc)
          (lowerStr (stripStr ("kit".toList)))).map Event.printMsg :=
  ⟨C4_filter_semantics.2.2.1 convOk segsConc ("r".toList) cacheConc argsOut
      fs0 ("UIKit".toList) (("UIKit.framework/UIKit").toList) [] rfl rfl rfl
      (by decide),
    C4_filter_semantics.2.2.2 convOk segsConc ("r".toList) cacheConc argsList
      fs0 ("kit".toList) rfl rfl rfl⟩

/-- C7: on a successful extraction, the destination is the --output
value verbatim when it is supplied and binaries/<stripped target> when
it is omitted: the output file is opened at that path and the final
file system holds a file there. -/
theorem C7_output_destination (conv : StageName → Stage)
    (parseSegs : Buf → Nat → List (Str × segment_command_64))
    (reporter : Str) (dyldCtx : DyldContext) (args : Args) (fs : FS)
    (t p : Str) (rest : List Str)
    (hl : args.list_frameworks = false)
    (he : args.extract = some t)
    (hne : t.isEmpty = false)
    (hm : _filterImages (imageKeys dyldCtx) (stripStr t) = p :: rest)
    (hsucc : (main conv parseSegs reporter dyldCtx args fs).outcome
      = Except.ok ()) :
    (∀ o, args.output = some o →
      Event.fileOpen o ∈ (main conv parseSegs reporter dyldCtx args fs).events
      ∧ (FS.readFile (main conv parseSegs reporter dyldCtx args fs).fs
          o).isSome = true)
    ∧ (args.output = none →
      Event.fileOpen (("binaries/".toList) ++ stripStr t) ∈
        (main conv parseSegs reporter dyldCtx args fs).events
      ∧ (FS.readFile (main conv parseSegs reporter dyldCtx args fs).fs
          (("binaries/".toList) ++ stripStr t)).isSome = true) := by
  rw [main_extract_eq conv parseSegs reporter dyldCtx args fs t hl he hne]
    at hsucc ⊢
  cases hdf : dictFind (buildImageMap dyldCtx.images) p with
  | none =>
    rw [extractBranch_cons_none conv parseSegs reporter dyldCtx args fs
      t p rest he hm hdf] at hsucc
    exact Except.noConfusion hsucc
  | some img =>
    rw [extractBranch_cons_found conv parseSegs reporter dyldCtx args fs
      t p rest img he hm hdf] at hsucc ⊢
    constructor
    · intro o ho
      rw [outputChoice_some args (stripStr t) fs o ho] at hsucc ⊢
      have h := extractImage_ok_opened conv parseSegs reporter dyldCtx img
        o fs hsucc
      exact ⟨by simpa using h.1, h.2⟩
    · intro ho
      rw [outputChoice_none args (stripStr t) fs ho] at hsucc ⊢
      have h := extractImage_ok_opened conv parseSegs reporter dyldCtx img
        (("binaries/".toList) ++ stripStr t)
        (fs.mkdirs (parentDir (("binaries/".toList) ++ stripStr t))) hsucc
      exact ⟨by simpa using h.1, h.2⟩

/-- C7 witness: on the concrete cache, with --output the file is opened
at out, and without it at binaries/UIKit. -/
theorem C7_witness :
    (Event.fileOpen ("out".toList) ∈
        (main convOk segsConc ("r".toList) cacheConc argsOut fs0).events
      ∧ (FS.readFile (main convOk segsConc ("r".toList) cacheConc argsOut
          fs0).fs ("out".toList)).isSome = true)
    ∧ (Event.fileOpen (("binaries/".toList) ++ stripStr ("UIKit".toList)) ∈
        (main convOk segsConc ("r".toList) cacheConc argsDefault fs0).events
      ∧ (FS.readFile (main convOk segsConc ("r".toList) cacheConc argsDefault
          fs0).fs (("binaries/".toList) ++ stripStr ("UIKit".toList))).isSome
        = true) :=
  ⟨(C7_output_destination convOk segsConc ("r".toList) cacheConc argsOut fs0
      ("UIKit".toList) (("UIKit.framework/UIKit").toList) [] rfl rfl rfl
      (by decide) rfl).1 ("out".toList) rfl,
    (C7_output_destination convOk segsConc ("r".toList) cacheConc argsDefault
      fs0 ("UIKit".toList) (("UIKit.framework/UIKit").toList) [] rfl rfl rfl
      (by decide) rfl).2 rfl⟩

/-- C9: when --list-frameworks is given the program only lists: the
file system is unchanged, the run succeeds, the events are the header
followed by the matching paths, and no file, stage, or directory event
occurs — extraction never starts even when --extract is also given. -/
theorem C9_listing_precedence (conv : StageName → Stage)
    (parseSegs : Buf → Nat → List (Str × segment_command_64))
    (reporter : Str) (dyldCtx : DyldContext) (args : Args) (fs : FS)
    (h : args.list_frameworks = true) :
    (main conv parseSegs reporter dyldCtx args fs).fs = fs
    ∧ (main conv parseSegs reporter dyldCtx args fs).outcome = Except.ok ()
    ∧ (main conv parseSegs reporter dyldCtx args fs).events
      = Event.printMsg listingHeader ::
          (if optTruthy args.filter then
            _filterImages (imageKeys dyldCtx)
              (lowerStr (stripStr (args.filter.getD [])))
          else imageKeys dyldCtx).map Event.printMsg
    ∧ ((main conv parseSegs reporter dyldCtx args fs).events.all
        (fun e => !isFileEvent e && !isStageEvent e && !isMkdirsEvent e))
      = true := by
  have hev : (main conv parseSegs reporter dyldCtx args fs).events
      = Event.printMsg listingHeader ::
          (if optTruthy args.filter then
            _filterImages (imageKeys dyldCtx)
              (lowerStr (stripStr (args.filter.getD [])))
          else imageKeys dyldCtx).map Event.printMsg := by
    unfold main
    rw [h, if_pos rfl]
    exact rfl
  refine ⟨?_, ?_, hev, ?_⟩
  · unfold main
    rw [h, if_pos rfl]
    exact rfl
  · unfold main
    rw [h, if_pos rfl]
    exact rfl
  · rw [hev]
    simp only [List.all_eq_true]
    intro e he2
    rcases List.mem_cons.mp he2 with h1 | h2
    · subst h1; rfl
    · obtain ⟨msg, hmsg, h3⟩ := List.mem_map.mp h2
      subst h3; rfl

/-- C9 witness: listing with a filter on the concrete cache leaves the
file system unchanged and prints only the header and matches. -/
theorem C9_witness :
    (main convOk segsConc ("r".toList) cacheConc argsList fs0).fs = fs0
    ∧ (main convOk segsConc ("r".toList) cacheConc argsList fs0).outcome
      = Except.ok ()
    ∧ (main convOk segsConc ("r".toList) cacheConc argsList fs0).events
      = Event.printMsg listingHeader ::
          (if optTruthy argsList.filter then
            _filterImages (imageKeys cacheConc)
              (lowerStr (stripStr (argsList.filter.getD [])))
          else imageKeys cacheConc).map Event.printMsg
    ∧ ((main convOk segsConc ("r".toList) cacheConc argsList fs0).events.all
        (fun e => !isFileEvent e && !isStageEvent e && !isMkdirsEvent e))
      = true :=
  C9_listing_precedence convOk segsConc ("r".toList) cacheConc argsList fs0 rfl

/-- C10: directory creation happens only for the default destination:
with --output omitted the run begins by creating the parent of
binaries/<stripped target>; with --output supplied no directory is
created, and if the parent of the given path does not exist nothing is
written and the run does not succeed. -/
theorem C10_mkdirs_policy (conv : StageName → Stage)
    (parseSegs : Buf → Nat → List (Str × segment_command_64))
    (reporter : Str) (dyldCtx : DyldContext) (args : Args) (fs : FS)
    (t p : Str) (rest : List Str)
    (hl : args.list_frameworks = false)
    (he : args.extract = some t)
    (hne : t.isEmpty = false)
    (hm : _filterImages (imageKeys dyldCtx) (stripStr t) = p :: rest) :
    (args.output = none →
      (main conv parseSegs reporter dyldCtx args fs).events.head?
        = some (Event.mkdirs
            (parentDir (("binaries/".toList) ++ stripStr t))))
    ∧ (∀ o, args.output = some o →
      ((main conv parseSegs reporter dyldCtx args fs).events.all
        (fun e => !isMkdirsEvent e)) = true
      ∧ (dirExists fs (parentDir o) = false →
        (main conv parseSegs reporter dyldCtx args fs).fs = fs
        ∧ (main conv parseSegs reporter dyldCtx args fs).outcome
          ≠ Except.ok ())) := by
  rw [main_extract_eq conv parseSegs reporter dyldCtx args fs t hl he hne]
  constructor
  · intro ho
    cases hdf : dictFind (buildImageMap dyldCtx.images) p with
    | none =>
      rw [extractBranch_cons_none conv parseSegs reporter dyldCtx args fs
        t p rest he hm hdf, outputChoice_none args (stripStr t) fs ho]
      rfl
    | some img =>
      rw [extractBranch_cons_found conv parseSegs reporter dyldCtx args fs
        t p rest img he hm hdf, outputChoice_none args (stripStr t) fs ho]
      rfl
  · intro o ho
    cases hdf : dictFind (buildImageMap dyldCtx.images) p with
    | none =>
      rw [extractBranch_cons_none conv parseSegs reporter dyldCtx args fs
        t p rest he hm hdf, outputChoice_some args (stripStr t) fs o ho]
      exact ⟨by simp [isMkdirsEvent],
        fun _ => ⟨rfl, fun hc => Except.noConfusion hc⟩⟩
    | some img =>
      rw [extractBranch_cons_found conv parseSegs reporter dyldCtx args fs
        t p rest img he hm hdf, outputChoice_some args (stripStr t) fs o ho]
      constructor
      · have h := extractImage_no_mkdirs conv parseSegs reporter dyldCtx
          img o fs
        simp only [List.all_eq_true] at h ⊢
        intro e he2
        rcases List.mem_append.mp he2 with h1 | h2
        · rcases List.mem_append.mp h1 with h3 | h4
          · exact absurd h3 (List.not_mem_nil e)
          · have h5 := List.mem_singleton.mp h4
            subst h5; rfl
        · exact h e h2
      · intro hdir
        exact extractImage_parent_missing conv parseSegs reporter dyldCtx
          img o fs hdir

/-- C10 witness: the default destination begins with a mkdirs event for
binaries, while an explicit destination under a missing directory
creates nothing, changes nothing, and fails. -/
theorem C10_witness :
    (main convOk segsConc ("r".toList) cacheConc argsDefault fs0).events.head?
      = some (Event.mkdirs
          (parentDir (("binaries/".toList) ++ stripStr ("UIKit".toList))))
    ∧ ((main convOk segsConc ("r".toList) cacheConc argsOutMiss
        fs0).events.all (fun e => !isMkdirsEvent e)) = true
    ∧ (main convOk segsConc ("r".toList) cacheConc argsOutMiss fs0).fs = fs0
    ∧ (main convOk segsConc ("r".toList) cacheConc argsOutMiss fs0).outcome
      ≠ Except.ok () := by
  have hA := (C10_mkdirs_policy convOk segsConc ("r".toList) cacheConc
    argsDefault fs0 ("UIKit".toList) (("UIKit.framework/UIKit").toList) []
    rfl rfl rfl (by decide)).1 rfl
  have hB := (C10_mkdirs_policy convOk segsConc ("r".toList) cacheConc
    argsOutMiss fs0 ("UIKit".toList) (("UIKit.framework/UIKit").toList) []
    rfl rfl rfl (by decide)).2 ("nodir/out".toList) rfl
  exact ⟨hA, hB.1, (hB.2 (by decide)).1, (hB.2 (by decide)).2⟩

end DyldExtractor
